import Mathlib

/-!
# Verification of the gitops-service orchestration core

Shallow embedding of the repository's core logic:

* `src/queue/push-queue.js` — the concurrency-capped task queue
  (`enqueue` / `drain` / `stats`), modelled as a state machine over
  an `active` counter and a FIFO `waiting` list, with a `started`
  history log recording the order in which tasks are handed a slot.
* `src/server.js` — `validateDir` (path-containment check).
* `src/github/create-feat-branch.js` — feature-id sanitization and the
  publish pipeline.
* `src/github/ensure-branch.js`, `src/github/ensure-project.js` — the
  idempotent branch / project bootstrap protocols, modelled against an
  explicit GitHub remote-state model (refs / blobs / trees / commits /
  pull requests) with a call log.
-/

/-! ## Task queue (src/queue/push-queue.js)

The queue's JS state is `let active = 0; const waiting = [];`.  Execution is
single-threaded and cooperative: `enqueue` appends to `waiting` and runs
`drain`; `drain` pops heads while `active < CONCURRENCY`, incrementing
`active` and invoking the task; a task completion decrements `active` and
re-runs `drain`.  Tasks are identified by `Nat` ids; `started` records, in
order, every task whose function has been invoked (handed a slot). -/

structure QState where
  active : Nat
  waiting : List Nat
  started : List Nat
deriving Repr, DecidableEq

/-- The `while (active < CONCURRENCY && waiting.length > 0)` loop of `drain`:
pop the head of the waiting list, increment `active`, start the task. -/
def drainGo (c : Nat) (active : Nat) (started : List Nat) : List Nat → QState
  | [] => ⟨active, [], started⟩
  | t :: rest =>
    if active < c then drainGo c (active + 1) (started ++ [t]) rest
    else ⟨active, t :: rest, started⟩

def drain (c : Nat) (s : QState) : QState :=
  drainGo c s.active s.started s.waiting

/-- `enqueue(task)`: `waiting.push({task, resolve, reject}); drain();`.
The source version (src/queue/push-queue.js) performs no depth check:
every offered task is appended to the waiting list unconditionally. -/
def enqueue (c : Nat) (t : Nat) (s : QState) : QState :=
  drain c { s with waiting := s.waiting ++ [t] }

/-- A running task settles: `.finally(() => { active--; drain(); })`.
A completion event only exists while a task is running (`active > 0`). -/
def completeTask (c : Nat) (s : QState) : QState :=
  if s.active = 0 then s else drain c { s with active := s.active - 1 }

inductive QEvent where
  | enq (t : Nat)
  | fin
deriving Repr, DecidableEq

def qInit : QState := ⟨0, [], []⟩

def runQueue (c : Nat) : List QEvent → QState → QState
  | [], s => s
  | QEvent.enq t :: es, s => runQueue c es (enqueue c t s)
  | QEvent.fin :: es, s => runQueue c es (completeTask c s)

/-- The tasks offered to the queue, in submission order. -/
def enqueuedOf (es : List QEvent) : List Nat :=
  es.filterMap fun e => match e with | QEvent.enq t => some t | QEvent.fin => none

/-- `stats()` returns `{active, queued, concurrency}`. -/
def qstats (c : Nat) (s : QState) : Nat × Nat × Nat :=
  (s.active, s.waiting.length, c)

/-! ## validateDir (src/server.js lines 31-40)

`validateDir` first runs `path.resolve(dir)`; the containment decision is a
pure string test on the resolved path, which is what we embed: the function
below receives the already-resolved absolute path (`resolved`), and `base`
is the startup-resolved `INCOMING_DIR`.  On failure the thrown error carries
`status: 400`. -/

structure JsError where
  status : Option Nat
  msg : String
deriving Repr, DecidableEq

def pathSep : String := "/"

/-- JS `String.prototype.startsWith` on character lists. -/
def startsWithChars : List Char → List Char → Bool
  | [], _ => true
  | _ :: _, [] => false
  | a :: as, b :: bs => a == b && startsWithChars as bs

/-- JS `s.startsWith(pre)`. -/
def strStartsWith (s pre : String) : Bool :=
  startsWithChars pre.toList s.toList

def validateDir (base : String) (resolved : String) : Except JsError String :=
  if ¬ strStartsWith resolved (base ++ pathSep) ∧ resolved ≠ base then
    Except.error ⟨some 400, "dir must be inside " ++ base⟩
  else
    Except.ok resolved

/-! ## Feature-id sanitization (src/github/create-feat-branch.js line 34-36)

`feat_name.replace(/[^a-zA-Z0-9._-]/g, '-').toLowerCase()` — every character
outside `[a-zA-Z0-9._-]` is REPLACED by `'-'` (not removed), then the result
is lowercased.  Since every non-ASCII character is replaced before the
lowercase step, ASCII `Char.toLower` is an exact model of JS `toLowerCase`
here. -/

def allowedFeatChar (ch : Char) : Bool :=
  (('a' ≤ ch && ch ≤ 'z') || ('A' ≤ ch && ch ≤ 'Z') || ('0' ≤ ch && ch ≤ '9')
    || ch = '.' || ch = '_' || ch = '-')

def sanitizeFeatName (name : String) : String :=
  String.mk ((name.toList.map fun ch => if allowedFeatChar ch then ch else '-').map Char.toLower)

/-- Modelled from the claim's words ("stripping disallowed characters and
lowercasing"): remove every disallowed character, then lowercase.  Stated
only to compare with the source's `sanitizeFeatName`. -/
def stripSanitizeClaim (name : String) : String :=
  String.mk ((name.toList.filter allowedFeatChar).map Char.toLower)

/-- `featId = feat_name ? sanitize(feat_name) : uuidv4()`; the fresh random
identifier is supplied as the `freshId` oracle. -/
def featIdOf (featName : Option String) (freshId : String) : String :=
  match featName with
  | some n => sanitizeFeatName n
  | none => freshId

/-! ## GitHub remote-state model

The remote host's content-addressed primitives (blobs / trees / commits),
branch refs and pull requests, together with a log of the API calls issued.
Ids (shas, PR numbers) are allocated from a `fresh` counter; newly created
entries are prepended to the association lists, so a lookup always sees the
most recent binding for a key.

`githubApi` (src/github/api.js) surfaces a non-success HTTP status as an
error object carrying `status`; the per-endpoint behaviour below models the
host's documented semantics relied upon by the source (404 = absent ref or
file, 422 = duplicate ref creation, content writes conditioned on the
current blob sha).  Base64 transport encoding of file contents is modelled
as the identity: it is an injective encoding and the source compares the
newline-stripped encoded forms, which is equality of the raw contents. -/

def alookup {κ α : Type} [DecidableEq κ] (k : κ) : List (κ × α) → Option α
  | [] => none
  | (k', v) :: rest => if k = k' then some v else alookup k rest

structure TreeEntry where
  path : String
  sha : Nat
deriving Repr, DecidableEq

structure CommitObj where
  tree : Nat
  parents : List Nat
deriving Repr, DecidableEq

structure PullReq where
  number : Nat
  head : String
  base : String
  isOpen : Bool
  url : String
deriving Repr, DecidableEq

structure GHState where
  blobs : List (Nat × String)
  trees : List (Nat × List TreeEntry)
  commits : List (Nat × CommitObj)
  refs : List (String × Nat)
  pulls : List PullReq
  fresh : Nat
deriving Repr, DecidableEq

def GHState.init : GHState := ⟨[], [], [], [], [], 0⟩

inductive GHCall where
  | getRef (branch : String)
  | createRef (branch : String) (sha : Nat)
  | createBlob (content : String)
  | createTree (entries : List TreeEntry)
  | createCommit (tree : Nat) (parents : List Nat)
  | getContents (branch : String) (path : String)
  | putContents (branch : String) (path : String) (content : String) (sha : Option Nat)
  | listPulls (head : String) (base : String)
  | createPull (head : String) (base : String)
  | addLabels (number : Nat) (labels : List String)
deriving Repr, DecidableEq

/-- Calls that mutate remote state (content-changing writes). -/
def GHCall.isWrite : GHCall → Bool
  | GHCall.getRef _ => false
  | GHCall.getContents _ _ => false
  | GHCall.listPulls _ _ => false
  | _ => true

/-- Remote-interaction monad: a computation takes the remote state and
returns a result or a thrown JS error, the updated remote state, and the
API calls issued (in order). -/
def GHM (α : Type) : Type := GHState → Except JsError α × GHState × List GHCall

def ghPure {α : Type} (a : α) : GHM α := fun s => (Except.ok a, s, [])

def ghThrow {α : Type} (e : JsError) : GHM α := fun s => (Except.error e, s, [])

/-- `await m` then continue; a thrown error propagates (promise chaining). -/
def ghBind {α β : Type} (m : GHM α) (f : α → GHM β) : GHM β := fun s =>
  match m s with
  | (Except.ok a, s1, l1) => ((f a s1).1, (f a s1).2.1, l1 ++ (f a s1).2.2)
  | (Except.error e, s1, l1) => (Except.error e, s1, l1)

/-- `try { m } catch (e) { handler e }`. -/
def ghTry {α : Type} (m : GHM α) (handler : JsError → GHM α) : GHM α := fun s =>
  match m s with
  | (Except.error e, s1, l1) => ((handler e s1).1, (handler e s1).2.1, l1 ++ (handler e s1).2.2)
  | (Except.ok a, s1, l1) => (Except.ok a, s1, l1)

def ghForM {α : Type} (f : α → GHM Unit) : List α → GHM Unit
  | [] => ghPure ()
  | x :: rest => ghBind (f x) fun _ => ghForM f rest

def ghMapM {α β : Type} (f : α → GHM β) : List α → GHM (List β)
  | [] => ghPure []
  | x :: rest => ghBind (f x) fun b => ghBind (ghMapM f rest) fun bs => ghPure (b :: bs)

def notFoundErr : JsError := ⟨some 404, "GitHub API 404: Not Found"⟩

def conflictErr : JsError := ⟨some 422, "GitHub API 422: Reference already exists"⟩

/-- `GET /git/ref/heads/{branch}` — the ref's commit sha, or 404. -/
def ghGetRef (branch : String) : GHM Nat := fun s =>
  match alookup branch s.refs with
  | some sha => (Except.ok sha, s, [GHCall.getRef branch])
  | none => (Except.error notFoundErr, s, [GHCall.getRef branch])

/-- `POST /git/refs` — create a ref; the host rejects a duplicate name
with 422 (creation is a compare-and-swap keyed by name). -/
def ghCreateRef (branch : String) (sha : Nat) : GHM Unit := fun s =>
  match alookup branch s.refs with
  | some _ => (Except.error conflictErr, s, [GHCall.createRef branch sha])
  | none => (Except.ok (), { s with refs := (branch, sha) :: s.refs }, [GHCall.createRef branch sha])

/-- `POST /git/blobs`. -/
def ghCreateBlob (content : String) : GHM Nat := fun s =>
  (Except.ok s.fresh,
   { s with blobs := (s.fresh, content) :: s.blobs, fresh := s.fresh + 1 },
   [GHCall.createBlob content])

/-- `POST /git/trees` with no `base_tree`: the tree holds exactly the given
entries, nothing inherited. -/
def ghCreateTree (entries : List TreeEntry) : GHM Nat := fun s =>
  (Except.ok s.fresh,
   { s with trees := (s.fresh, entries) :: s.trees, fresh := s.fresh + 1 },
   [GHCall.createTree entries])

/-- `POST /git/commits` with the given tree and parent list. -/
def ghCreateCommit (tree : Nat) (parents : List Nat) : GHM Nat := fun s =>
  (Except.ok s.fresh,
   { s with commits := (s.fresh, ⟨tree, parents⟩) :: s.commits, fresh := s.fresh + 1 },
   [GHCall.createCommit tree parents])

def entFind (path : String) : List TreeEntry → Option TreeEntry
  | [] => none
  | e :: rest => if e.path = path then some e else entFind path rest

/-- The tree entries at the tip of `branch`, resolved ref → commit → tree. -/
def branchEntries (s : GHState) (branch : String) : Option (List TreeEntry) :=
  match alookup branch s.refs with
  | none => none
  | some c =>
    match alookup c s.commits with
    | none => none
    | some cm => alookup cm.tree s.trees

/-- The file at `path` on `branch`: its content and blob sha, when the whole
chain resolves. -/
def fileAt (s : GHState) (branch : String) (path : String) : Option (String × Nat) :=
  match branchEntries s branch with
  | none => none
  | some entries =>
    match entFind path entries with
    | none => none
    | some e =>
      match alookup e.sha s.blobs with
      | none => none
      | some content => some (content, e.sha)

/-- `GET /contents/{path}?ref={branch}` — content and blob sha, or 404. -/
def ghGetContents (branch : String) (path : String) : GHM (String × Nat) := fun s =>
  match fileAt s branch path with
  | some r => (Except.ok r, s, [GHCall.getContents branch path])
  | none => (Except.error notFoundErr, s, [GHCall.getContents branch path])

/-- The state after a successful single-file content write on `branch`:
the host creates a blob, a tree with the entry replaced/added, a commit
whose parent is the old tip, and advances the ref — one API call. -/
def putApply (s : GHState) (branch : String) (path : String) (content : String) (headSha : Nat) : GHState :=
  let entries := (branchEntries s branch).getD []
  { s with
    blobs := (s.fresh, content) :: s.blobs,
    trees := (s.fresh + 1, entries.filter (fun e => e.path ≠ path) ++ [⟨path, s.fresh⟩]) :: s.trees,
    commits := (s.fresh + 2, ⟨s.fresh + 1, [headSha]⟩) :: s.commits,
    refs := (branch, s.fresh + 2) :: s.refs,
    fresh := s.fresh + 3 }

/-- `PUT /contents/{path}` — conditional single-file write: an existing
file requires its current blob sha as precondition (absent sha → 422,
stale sha → 409, the lost-update guard); a new file requires no sha. -/
def ghPutContents (branch : String) (path : String) (content : String) (sha : Option Nat) : GHM Unit := fun s =>
  let call := GHCall.putContents branch path content sha
  match alookup branch s.refs with
  | none => (Except.error notFoundErr, s, [call])
  | some headSha =>
    match (fileAt s branch path).map (fun r => r.2), sha with
    | some b, some p =>
      if p = b then (Except.ok (), putApply s branch path content headSha, [call])
      else (Except.error ⟨some 409, "GitHub API 409: sha mismatch"⟩, s, [call])
    | some _, none => (Except.error ⟨some 422, "GitHub API 422: sha required"⟩, s, [call])
    | none, some _ => (Except.error ⟨some 422, "GitHub API 422: sha provided for new file"⟩, s, [call])
    | none, none => (Except.ok (), putApply s branch path content headSha, [call])

def prMatches (head base : String) (pr : PullReq) : Bool :=
  decide (pr.head = head ∧ pr.base = base ∧ pr.isOpen = true)

/-- `GET /pulls?head={owner}:{branch}&base={base}&state=open` (the constant
`owner:` qualifier is dropped; heads are compared by branch name). -/
def ghListPulls (head base : String) : GHM (List PullReq) := fun s =>
  (Except.ok (s.pulls.filter (prMatches head base)), s, [GHCall.listPulls head base])

def mkPrUrl (n : Nat) : String := "https://github.com/pull/" ++ toString n

/-- `POST /pulls` — the host allocates a number and url; the at-most-one-
open-PR-per-branch invariant is enforced by the publisher, not here. -/
def ghCreatePull (head base : String) : GHM PullReq := fun s =>
  let pr : PullReq := ⟨s.fresh, head, base, true, mkPrUrl s.fresh⟩
  (Except.ok pr, { s with pulls := s.pulls ++ [pr], fresh := s.fresh + 1 }, [GHCall.createPull head base])

/-- `POST /issues/{n}/labels` — labels are not tracked in the model state;
the source swallows a labelling failure anyway. -/
def ghAddLabels (number : Nat) (labels : List String) : GHM Unit := fun s =>
  (Except.ok (), s, [GHCall.addLabels number labels])

/-- A concurrent caller racing us may create `branch` between our commit
creation and our ref creation — the 404-then-create race that §4.4 of the
spec absorbs.  Not an API call of this caller, hence no log entry. -/
def interferePoint (i : Option Nat) (branch : String) : GHM Unit := fun s =>
  match i with
  | none => (Except.ok (), s, [])
  | some sha =>
    match alookup branch s.refs with
    | some _ => (Except.ok (), s, [])
    | none => (Except.ok (), { s with refs := (branch, sha) :: s.refs }, [])

/-! ## ensureBranch (src/github/ensure-branch.js) -/

/-- The branch-missing path of `ensureBranch`: read the source ref to
obtain its commit sha, attempt to create the branch there, absorb a 422
(concurrent creation), propagate anything else. -/
def ensureBranchMissing (branch : String) (sourceBranch : String) : GHM Unit :=
  ghBind (ghGetRef sourceBranch) fun sha =>
    ghTry (ghCreateRef branch sha)
      (fun createErr =>
        if createErr.status ≠ some 422 then ghThrow createErr else ghPure ())

/-- `ensureBranch(branch, sourceBranch)` against the remote-state model:
read the ref; on 404 read the source ref and create the branch at its sha;
absorb a 422 on the create; propagate everything else. -/
def ensureBranch (branch : String) (sourceBranch : String) : GHM Unit :=
  ghTry (ghBind (ghGetRef branch) fun _ => ghPure ())
    (fun err =>
      if err.status ≠ some 404 then ghThrow err
      else ensureBranchMissing branch sourceBranch)

inductive RefCall where
  | getRef (branch : String)
  | createRef (branch : String) (sha : Nat)
deriving Repr, DecidableEq

/-- `ensureBranch` over explicit call outcomes (response oracles), so that
arbitrary upstream failures — not only the 404/422 the state model can
produce — are covered: `refRes` is the outcome of reading `branch`'s ref,
`srcRes` of reading `sourceBranch`'s ref, `createRes` of the ref creation.
Returns the overall outcome and the calls actually issued, following the
source's control flow exactly. -/
def ensureBranchR (branch : String) (sourceBranch : String)
    (refRes : Except JsError Nat) (srcRes : Except JsError Nat)
    (createRes : Except JsError Unit) : Except JsError Unit × List RefCall :=
  match refRes with
  | Except.ok _ => (Except.ok (), [RefCall.getRef branch])
  | Except.error err =>
    if err.status ≠ some 404 then (Except.error err, [RefCall.getRef branch])
    else
      match srcRes with
      | Except.error e2 => (Except.error e2, [RefCall.getRef branch, RefCall.getRef sourceBranch])
      | Except.ok sha =>
        match createRes with
        | Except.ok _ =>
          (Except.ok (), [RefCall.getRef branch, RefCall.getRef sourceBranch, RefCall.createRef branch sha])
        | Except.error ce =>
          if ce.status ≠ some 422 then
            (Except.error ce, [RefCall.getRef branch, RefCall.getRef sourceBranch, RefCall.createRef branch sha])
          else
            (Except.ok (), [RefCall.getRef branch, RefCall.getRef sourceBranch, RefCall.createRef branch sha])

/-! ## ensureProject (src/github/ensure-project.js)

`getBootstrapFiles(project)` reads the automation-template directory and the
review-agent scripts from local disk — deterministic for a given
configuration; it is passed to the model as the `files : List (path ×
content)` parameter.  `Promise.all` over the blob creations is modelled
sequentially (single-threaded interleaving only affects sha allocation
order). -/

/-- `ensureOrphanBranch(branch, project)`: check the ref (404 = absent);
create one blob per file, a tree with no base tree, a root commit with no
parents, then the ref; a 422 on the ref creation (concurrent caller won the
race, modelled by `interfere`) yields `false` = already existing. -/
def orphanCreate (files : List (String × String)) (branch : String)
    (interfere : Option Nat) : GHM Bool :=
  ghBind (ghMapM (fun f => ghBind (ghCreateBlob f.2) fun sha => ghPure (⟨f.1, sha⟩ : TreeEntry)) files)
    fun entries =>
  ghBind (ghCreateTree entries) fun treeSha =>
  ghBind (ghCreateCommit treeSha []) fun commitSha =>
  ghBind (interferePoint interfere branch) fun _ =>
  ghTry (ghBind (ghCreateRef branch commitSha) fun _ => ghPure true)
    (fun ce => if ce.status ≠ some 422 then ghThrow ce else ghPure false)

def ensureOrphanBranch (files : List (String × String)) (branch : String)
    (interfere : Option Nat) : GHM Bool :=
  ghTry (ghBind (ghGetRef branch) fun _ => ghPure false)
    (fun err =>
      if err.status ≠ some 404 then ghThrow err
      else orphanCreate files branch interfere)

/-- `upsertBootstrapFiles(branch, project)`: per file, read the existing
content and sha (any read failure ⇒ treat as new file); skip when
byte-identical; otherwise write, passing the existing sha as precondition
when present. -/
def upsertOne (branch : String) (f : String × String) : GHM Unit :=
  ghBind
    (ghTry (ghBind (ghGetContents branch f.1) fun r => ghPure (some r))
      (fun _ => ghPure none))
    fun existing =>
      match existing with
      | some (content, sha) =>
        if content = f.2 then ghPure ()
        else ghPutContents branch f.1 f.2 (some sha)
      | none => ghPutContents branch f.1 f.2 none

def upsertBootstrapFiles (files : List (String × String)) (branch : String) : GHM Unit :=
  ghForM (upsertOne branch) files

/-- `/^[a-zA-Z0-9_-]+$/.test(project)` together with the `!project` check:
valid iff non-empty and every character is in the class. -/
def allowedProjChar (ch : Char) : Bool :=
  (('a' ≤ ch && ch ≤ 'z') || ('A' ≤ ch && ch ≤ 'Z') || ('0' ≤ ch && ch ≤ '9')
    || ch = '_' || ch = '-')

def validProject (p : String) : Bool :=
  p != "" && p.toList.all allowedProjChar

def invalidProjectMsg (p : String) : String :=
  "Invalid project name: \"" ++ p ++ "\". Use only letters, numbers, hyphens, underscores."

def masterBranchOf (p : String) : String := p ++ "-master"

def devBranchOf (p : String) : String := p ++ "-dev"

/-- `ensureProject(project)`: validate the identifier (fail fast, no remote
call); ensure `{project}-master` as an orphan branch; when it already
existed, upsert the bootstrap files; ensure `{project}-dev` forked from it;
return both branch names. -/
def ensureProject (files : List (String × String)) (interfere : Option Nat)
    (project : String) : GHM (String × String) :=
  if validProject project = false then ghThrow ⟨none, invalidProjectMsg project⟩
  else
    ghBind (ensureOrphanBranch files (masterBranchOf project) interfere) fun masterIsNew =>
    ghBind (if masterIsNew then ghPure () else upsertBootstrapFiles files (masterBranchOf project)) fun _ =>
    ghBind (ensureBranch (devBranchOf project) (masterBranchOf project)) fun _ =>
    ghPure (masterBranchOf project, devBranchOf project)

/-- JS `String.prototype.includes`. -/
def hasSubChars (needle : List Char) : List Char → Bool
  | [] => startsWithChars needle []
  | h :: t => startsWithChars needle (h :: t) || hasSubChars needle t

def strIncludes (hay needle : String) : Bool :=
  hasSubChars needle.toList hay.toList

/-- src/server.js `POST /projects/:project/bootstrap` error mapping:
`err.message.includes('Invalid project') ? 400 : 500`. -/
def bootstrapErrorStatus (msg : String) : Nat :=
  if strIncludes msg "Invalid project" then 400 else 500

/-! ## createFeatBranch (src/github/create-feat-branch.js)

The directory is resolved to a `(path, content)` list by `readDirFiles`
before any remote work; the model receives that list (`files`).  The `dir`
string itself only feeds error messages and the PR body, which are not
modelled. -/

structure FeatResult where
  feat_id : String
  branch : String
  project : String
  dev_branch : String
  pr_number : Nat
  pr_url : String
deriving Repr, DecidableEq

/-- The sequential per-file push loop: read the current blob sha on the
branch (absent ⇒ new file, no precondition — any read failure is swallowed),
then write the content, with the sha as precondition when present.  Unlike
the bootstrap upsert, no identical-content skip is performed here. -/
def pushOne (branch : String) (f : String × String) : GHM Unit :=
  ghBind
    (ghTry (ghBind (ghGetContents branch f.1) fun r => ghPure (some r.2))
      (fun _ => ghPure none))
    fun existingSha => ghPutContents branch f.1 f.2 existingSha

def pushFiles (files : List (String × String)) (branch : String) : GHM Unit :=
  ghForM (pushOne branch) files

/-- `createFeatBranch({project, dir, description, feat_name, labels, source})`:
validate inputs; bootstrap the project; derive `featId` and the branch name;
create the branch off `{project}-dev` (absorbing a 422 = repeat publish);
push the files; reuse an existing open PR for (head, base) or create one and
attach labels (label failure swallowed). -/
def createFeatBranch (bootstrapFiles : List (String × String)) (freshId : String)
    (project : String) (files : List (String × String)) (featName : Option String)
    (labels : List String) : GHM FeatResult :=
  if project = "" then ghThrow ⟨none, "project is required"⟩
  else if files.isEmpty then ghThrow ⟨none, "No files found in directory"⟩
  else
    ghBind (ensureProject bootstrapFiles none project) fun branches =>
    ghBind (ghGetRef branches.2) fun baseSha =>
    ghBind
      (ghTry (ghCreateRef ("feat/" ++ featIdOf featName freshId) baseSha)
        (fun e => if e.status ≠ some 422 then ghThrow e else ghPure ()))
      fun _ =>
    ghBind (pushFiles files ("feat/" ++ featIdOf featName freshId)) fun _ =>
    ghBind (ghListPulls ("feat/" ++ featIdOf featName freshId) branches.2) fun existingPRs =>
    ghBind
      (match existingPRs with
       | pr :: _ => ghPure pr
       | [] =>
         ghBind (ghCreatePull ("feat/" ++ featIdOf featName freshId) branches.2) fun pr =>
         ghBind (ghTry (ghAddLabels pr.number ("automated" :: project :: labels)) (fun _ => ghPure ()))
           fun _ => ghPure pr)
      fun pr =>
    ghPure ⟨featIdOf featName freshId, "feat/" ++ featIdOf featName freshId,
            project, branches.2, pr.number, pr.url⟩

/-- The net effect of the blob-creation pass of `ensureOrphanBranch`: the
tree entries produced (paths in file order, shas allocated from the
counter) and the resulting state. -/
def allocBlobs : List (String × String) → GHState → List TreeEntry × GHState
  | [], s => ([], s)
  | f :: rest, s =>
    let s1 : GHState := { s with blobs := (s.fresh, f.2) :: s.blobs, fresh := s.fresh + 1 }
    ((⟨f.1, s.fresh⟩ : TreeEntry) :: (allocBlobs rest s1).1, (allocBlobs rest s1).2)

/-! ## Theorems: task queue -/

theorem drainGo_active_le {c a : Nat} {st : List Nat} (w : List Nat) (h : a ≤ c) :
    (drainGo c a st w).active ≤ c := by
  induction w generalizing a st with
  | nil => simpa [drainGo] using h
  | cons t rest ih =>
    simp only [drainGo]
    split
    · exact ih (by omega)
    · simpa using h

theorem drainGo_content {c : Nat} (w : List Nat) (a : Nat) (st : List Nat) :
    (drainGo c a st w).started ++ (drainGo c a st w).waiting = st ++ w := by
  induction w generalizing a st with
  | nil => simp [drainGo]
  | cons t rest ih =>
    simp only [drainGo]
    split
    · rw [ih]; simp
    · simp

theorem enqueue_active_le {c : Nat} {s : QState} (t : Nat) (h : s.active ≤ c) :
    (enqueue c t s).active ≤ c :=
  drainGo_active_le _ h

theorem completeTask_active_le {c : Nat} {s : QState} (h : s.active ≤ c) :
    (completeTask c s).active ≤ c := by
  unfold completeTask
  split
  · exact h
  · exact drainGo_active_le _ (Nat.le_trans (Nat.sub_le _ _) h)

theorem runQueue_active_le {c : Nat} (es : List QEvent) (s : QState) (h : s.active ≤ c) :
    (runQueue c es s).active ≤ c := by
  induction es generalizing s with
  | nil => exact h
  | cons e rest ih =>
    cases e with
    | enq t => exact ih _ (enqueue_active_le t h)
    | fin => exact ih _ (completeTask_active_le h)

/-- C2: for every concurrency bound `c` and every sequence of enqueue calls
and task completions, the number of simultaneously running tasks (the
`active` counter) never exceeds `c`. -/
theorem queue_active_never_exceeds_concurrency (c : Nat) (es : List QEvent) :
    (runQueue c es qInit).active ≤ c :=
  runQueue_active_le es qInit (Nat.zero_le c)

theorem enqueue_content {c : Nat} (t : Nat) (s : QState) :
    (enqueue c t s).started ++ (enqueue c t s).waiting = s.started ++ s.waiting ++ [t] := by
  unfold enqueue drain
  rw [drainGo_content]
  simp

theorem completeTask_content {c : Nat} (s : QState) :
    (completeTask c s).started ++ (completeTask c s).waiting = s.started ++ s.waiting := by
  unfold completeTask
  split
  · rfl
  · exact drainGo_content _ _ _

theorem runQueue_content {c : Nat} (es : List QEvent) (s : QState) :
    (runQueue c es s).started ++ (runQueue c es s).waiting =
      s.started ++ s.waiting ++ enqueuedOf es := by
  induction es generalizing s with
  | nil => simp [runQueue, enqueuedOf]
  | cons e rest ih =>
    cases e with
    | enq t =>
      simp only [runQueue]
      rw [ih, enqueue_content]
      simp [enqueuedOf, List.append_assoc]
    | fin =>
      simp only [runQueue]
      rw [ih, completeTask_content]
      simp [enqueuedOf]

/-- C3: admission into a running slot is strict FIFO by enqueue order — at
every point, the tasks already handed a slot (`started`, in the order their
functions were invoked) are exactly an initial segment of the submission
order, so a task never starts before an earlier-submitted one; in
particular with `concurrency = 1` tasks start in exact submission order. -/
theorem queue_admission_fifo (c : Nat) (es : List QEvent) :
    (runQueue c es qInit).started ++ (runQueue c es qInit).waiting = enqueuedOf es ∧
    (runQueue c es qInit).started =
      (enqueuedOf es).take (runQueue c es qInit).started.length := by
  have h : (runQueue c es qInit).started ++ (runQueue c es qInit).waiting = enqueuedOf es := by
    rw [runQueue_content]; rfl
  refine ⟨h, ?_⟩
  rw [← h, List.take_left]

set_option maxRecDepth 100000 in
/-- C1 evidence (code bug): the shipped queue has no depth bound — an
enqueue call always admits the task (it lands in the started log or the
waiting list; there is no rejection path), whatever the backlog.
Concretely, with `concurrency = 5` and the documented default
`maxDepth = 50`, all 56 concurrently offered never-completing tasks are
admitted: the 56th is appended (waiting depth 51), not rejected. -/
theorem queue_admits_beyond_any_depth :
    (∀ (c t : Nat) (s : QState),
      (enqueue c t s).started ++ (enqueue c t s).waiting = s.started ++ s.waiting ++ [t]) ∧
    (runQueue 5 ((List.range 56).map QEvent.enq) qInit).active = 5 ∧
    (runQueue 5 ((List.range 56).map QEvent.enq) qInit).waiting.length = 51 := by
  refine ⟨fun c t s => enqueue_content t s, ?_, ?_⟩ <;> decide

/-! ## Theorems: validateDir -/

/-- C10: `validateDir` accepts exactly the configured base directory itself
and its strict descendants — an input whose resolved path equals the base or
starts with the base followed by the path separator is returned resolved;
every other resolved path (including `..`-traversals resolving outside and
siblings such as `base ++ "-evil"`) raises an error tagged with status 400,
so only directories inside the base reach `createFeatBranch`. -/
theorem validateDir_containment (base resolved : String) :
    ((resolved = base ∨ strStartsWith resolved (base ++ pathSep) = true) →
      validateDir base resolved = Except.ok resolved) ∧
    (¬ (resolved = base ∨ strStartsWith resolved (base ++ pathSep) = true) →
      validateDir base resolved = Except.error ⟨some 400, "dir must be inside " ++ base⟩) := by
  unfold validateDir
  constructor
  · intro h
    rcases h with h | h
    · simp [h]
    · simp [h]
  · intro h
    push_neg at h
    simp [h.2, h.1]

theorem validateDir_containment_witness :
    validateDir "/mnt/incoming" "/mnt/incoming/proj-a/output" =
      Except.ok "/mnt/incoming/proj-a/output" ∧
    validateDir "/mnt/incoming" "/mnt/incoming" = Except.ok "/mnt/incoming" ∧
    validateDir "/mnt/incoming" "/mnt/incoming-evil/proj" =
      Except.error ⟨some 400, "dir must be inside /mnt/incoming"⟩ ∧
    validateDir "/mnt/incoming" "/etc/passwd" =
      Except.error ⟨some 400, "dir must be inside /mnt/incoming"⟩ :=
  ⟨(validateDir_containment _ _).1 (Or.inr (by decide)),
   (validateDir_containment _ _).1 (Or.inl rfl),
   (validateDir_containment _ _).2 (by decide),
   (validateDir_containment _ _).2 (by decide)⟩

/-! ## Theorems: feature-id sanitization -/

/-- C8 counterexample: the source derives `featId` by REPLACING each
character outside `[a-zA-Z0-9._-]` with `'-'` and lowercasing, not by
stripping the disallowed characters: on feature name `"My Feat!"` the code
yields `"my-feat-"`, whereas stripping would yield `"myfeat"`. -/
theorem sanitize_replaces_not_strips :
    sanitizeFeatName "My Feat!" = "my-feat-" ∧
    stripSanitizeClaim "My Feat!" = "myfeat" ∧
    sanitizeFeatName "My Feat!" ≠ stripSanitizeClaim "My Feat!" := by
  refine ⟨?_, ?_, ?_⟩ <;> decide

/-! ## Theorems: ensureBranch -/

/-- C6: `ensureBranch(branch, sourceBranch)` returns successfully without
issuing a create when the branch ref read succeeds; on a 404 it reads the
source ref and creates the branch at that sha; a 422 on that create is
absorbed as success; every other failure — a non-404 on the first read, any
failure of the source read, a non-422 on the create — propagates unchanged
to the caller. -/
theorem ensureBranch_protocol (b src : String) (refRes srcRes : Except JsError Nat)
    (createRes : Except JsError Unit) :
    (∀ sha, refRes = Except.ok sha →
      ensureBranchR b src refRes srcRes createRes = (Except.ok (), [RefCall.getRef b])) ∧
    (∀ e sha, refRes = Except.error e → e.status = some 404 → srcRes = Except.ok sha →
      createRes = Except.ok () →
      ensureBranchR b src refRes srcRes createRes =
        (Except.ok (), [RefCall.getRef b, RefCall.getRef src, RefCall.createRef b sha])) ∧
    (∀ e sha ce, refRes = Except.error e → e.status = some 404 → srcRes = Except.ok sha →
      createRes = Except.error ce → ce.status = some 422 →
      (ensureBranchR b src refRes srcRes createRes).1 = Except.ok ()) ∧
    (∀ e, refRes = Except.error e → e.status ≠ some 404 →
      (ensureBranchR b src refRes srcRes createRes).1 = Except.error e) ∧
    (∀ e e2, refRes = Except.error e → e.status = some 404 → srcRes = Except.error e2 →
      (ensureBranchR b src refRes srcRes createRes).1 = Except.error e2) ∧
    (∀ e sha ce, refRes = Except.error e → e.status = some 404 → srcRes = Except.ok sha →
      createRes = Except.error ce → ce.status ≠ some 422 →
      (ensureBranchR b src refRes srcRes createRes).1 = Except.error ce) := by
  refine ⟨?_, ?_, ?_, ?_, ?_, ?_⟩
  · intro sha h; subst h; simp [ensureBranchR]
  · intro e sha h1 h2 h3 h4; subst h1; subst h3; subst h4
    simp [ensureBranchR, h2]
  · intro e sha ce h1 h2 h3 h4 h5; subst h1; subst h3; subst h4
    simp [ensureBranchR, h2, h5]
  · intro e h1 h2; subst h1; simp [ensureBranchR, h2]
  · intro e e2 h1 h2 h3; subst h1; subst h3; simp [ensureBranchR, h2]
  · intro e sha ce h1 h2 h3 h4 h5; subst h1; subst h3; subst h4
    simp [ensureBranchR, h2, h5]

theorem ensureBranch_protocol_witness :
    ensureBranchR "proj-a-dev" "proj-a-master" (Except.ok 7)
        (Except.ok 7) (Except.ok ()) = (Except.ok (), [RefCall.getRef "proj-a-dev"]) ∧
    ensureBranchR "proj-a-dev" "proj-a-master" (Except.error ⟨some 404, "nf"⟩)
        (Except.ok 9) (Except.ok ()) =
      (Except.ok (), [RefCall.getRef "proj-a-dev", RefCall.getRef "proj-a-master",
                      RefCall.createRef "proj-a-dev" 9]) ∧
    (ensureBranchR "proj-a-dev" "proj-a-master" (Except.error ⟨some 404, "nf"⟩)
        (Except.ok 9) (Except.error ⟨some 422, "dup"⟩)).1 = Except.ok () ∧
    (ensureBranchR "proj-a-dev" "proj-a-master" (Except.error ⟨some 500, "boom"⟩)
        (Except.ok 9) (Except.ok ())).1 = Except.error ⟨some 500, "boom"⟩ ∧
    (ensureBranchR "proj-a-dev" "proj-a-master" (Except.error ⟨some 404, "nf"⟩)
        (Except.error ⟨some 503, "down"⟩) (Except.ok ())).1 = Except.error ⟨some 503, "down"⟩ ∧
    (ensureBranchR "proj-a-dev" "proj-a-master" (Except.error ⟨some 404, "nf"⟩)
        (Except.ok 9) (Except.error ⟨some 500, "boom"⟩)).1 = Except.error ⟨some 500, "boom"⟩ :=
  ⟨(ensureBranch_protocol _ _ _ _ _).1 7 rfl,
   (ensureBranch_protocol _ _ _ _ _).2.1 _ 9 rfl rfl rfl rfl,
   (ensureBranch_protocol _ _ _ _ _).2.2.1 _ 9 _ rfl rfl rfl rfl rfl,
   (ensureBranch_protocol _ _ _ _ _).2.2.2.1 _ rfl (by decide),
   (ensureBranch_protocol _ _ _ _ _).2.2.2.2.1 _ _ rfl rfl rfl,
   (ensureBranch_protocol _ _ _ _ _).2.2.2.2.2 _ 9 _ rfl rfl rfl rfl (by decide)⟩

/-! ## Lemmas: GHM combinators and primitives -/

theorem ghPure_eq {α : Type} (a : α) (s : GHState) : ghPure a s = (Except.ok a, s, []) := rfl

theorem ghThrow_eq {α : Type} (e : JsError) (s : GHState) :
    (ghThrow e : GHM α) s = (Except.error e, s, []) := rfl

theorem ghBind_eq_ok {α β : Type} {m : GHM α} {f : α → GHM β} {s s1 s2 : GHState}
    {a : α} {l1 l2 : List GHCall} {r : Except JsError β}
    (h : m s = (Except.ok a, s1, l1)) (h2 : f a s1 = (r, s2, l2)) :
    ghBind m f s = (r, s2, l1 ++ l2) := by
  simp [ghBind, h, h2]

theorem ghBind_eq_err {α β : Type} {m : GHM α} {f : α → GHM β} {s s1 : GHState}
    {e : JsError} {l1 : List GHCall} (h : m s = (Except.error e, s1, l1)) :
    ghBind m f s = (Except.error e, s1, l1) := by
  simp [ghBind, h]

theorem ghTry_eq_ok {α : Type} {m : GHM α} {handler : JsError → GHM α} {s s1 : GHState}
    {a : α} {l1 : List GHCall} (h : m s = (Except.ok a, s1, l1)) :
    ghTry m handler s = (Except.ok a, s1, l1) := by
  simp [ghTry, h]

theorem ghTry_eq_err {α : Type} {m : GHM α} {handler : JsError → GHM α} {s s1 s2 : GHState}
    {e : JsError} {l1 l2 : List GHCall} {r : Except JsError α}
    (h : m s = (Except.error e, s1, l1)) (h2 : handler e s1 = (r, s2, l2)) :
    ghTry m handler s = (r, s2, l1 ++ l2) := by
  simp [ghTry, h, h2]

theorem ghGetRef_some {b : String} {s : GHState} {sha : Nat}
    (h : alookup b s.refs = some sha) :
    ghGetRef b s = (Except.ok sha, s, [GHCall.getRef b]) := by
  simp [ghGetRef, h]

theorem ghGetRef_none {b : String} {s : GHState} (h : alookup b s.refs = none) :
    ghGetRef b s = (Except.error notFoundErr, s, [GHCall.getRef b]) := by
  simp [ghGetRef, h]

theorem ghCreateRef_free {b : String} {s : GHState} {sha : Nat}
    (h : alookup b s.refs = none) :
    ghCreateRef b sha s =
      (Except.ok (), { s with refs := (b, sha) :: s.refs }, [GHCall.createRef b sha]) := by
  simp [ghCreateRef, h]

theorem ghCreateRef_taken {b : String} {s : GHState} {sha sha0 : Nat}
    (h : alookup b s.refs = some sha0) :
    ghCreateRef b sha s = (Except.error conflictErr, s, [GHCall.createRef b sha]) := by
  simp [ghCreateRef, h]

theorem alookup_head {κ α : Type} [DecidableEq κ] (k : κ) (v : α) (rest : List (κ × α)) :
    alookup k ((k, v) :: rest) = some v := by
  simp [alookup]

theorem alookup_tail {κ α : Type} [DecidableEq κ] {k k' : κ} (v : α) (rest : List (κ × α))
    (h : k ≠ k') : alookup k ((k', v) :: rest) = alookup k rest := by
  simp [alookup, h]

theorem alookup_skip {κ α : Type} [DecidableEq κ] (k : κ) (front rest : List (κ × α))
    (h : ∀ pr ∈ front, pr.1 ≠ k) :
    alookup k (front ++ rest) = alookup k rest := by
  induction front with
  | nil => rfl
  | cons hd tl ih =>
    have hk : k ≠ hd.1 := fun he => h hd (by simp) (he ▸ rfl)
    calc alookup k ((hd :: tl) ++ rest) = alookup k (tl ++ rest) := by
          cases hd with
          | mk a b => exact alookup_tail _ _ hk
      _ = alookup k rest := ih (fun pr hm => h pr (by simp [hm]))

/-! ## Lemmas: allocBlobs (the blob-creation pass) -/

theorem allocBlobs_state (files : List (String × String)) (s : GHState) :
    (allocBlobs files s).2.refs = s.refs ∧
    (allocBlobs files s).2.trees = s.trees ∧
    (allocBlobs files s).2.commits = s.commits ∧
    (allocBlobs files s).2.pulls = s.pulls ∧
    (allocBlobs files s).2.fresh = s.fresh + files.length ∧
    ∃ nb, (allocBlobs files s).2.blobs = nb ++ s.blobs ∧ ∀ pr ∈ nb, s.fresh ≤ pr.1 := by
  induction files generalizing s with
  | nil => exact ⟨rfl, rfl, rfl, rfl, by simp [allocBlobs], [], rfl, by simp⟩
  | cons f rest ih =>
    obtain ⟨h1, h2, h3, h4, h5, nb, hnb, hge⟩ :=
      ih { s with blobs := (s.fresh, f.2) :: s.blobs, fresh := s.fresh + 1 }
    refine ⟨h1, h2, h3, h4, by simp [allocBlobs, h5]; omega, nb ++ [(s.fresh, f.2)], ?_, ?_⟩
    · simpa [allocBlobs] using hnb
    · intro pr hm
      rcases List.mem_append.mp hm with hm | hm
      · exact Nat.le_trans (Nat.le_succ _) (hge pr hm)
      · simp at hm; simp [hm]

theorem allocBlobs_entries (files : List (String × String)) (s : GHState) :
    List.Forall₂
      (fun (f : String × String) (e : TreeEntry) =>
        e.path = f.1 ∧ alookup e.sha (allocBlobs files s).2.blobs = some f.2)
      files (allocBlobs files s).1 := by
  induction files generalizing s with
  | nil => exact List.Forall₂.nil
  | cons f rest ih =>
    have hstep := ih { s with blobs := (s.fresh, f.2) :: s.blobs, fresh := s.fresh + 1 }
    refine List.Forall₂.cons ⟨rfl, ?_⟩ ?_
    · obtain ⟨_, _, _, _, _, nb, hnb, hge⟩ :=
        allocBlobs_state rest { s with blobs := (s.fresh, f.2) :: s.blobs, fresh := s.fresh + 1 }
      show alookup s.fresh (allocBlobs rest _).2.blobs = some f.2
      rw [hnb, alookup_skip _ _ _ (fun pr hm => Nat.ne_of_gt (hge pr hm)), alookup_head]
    · exact hstep

theorem allocBlobs_mapM (files : List (String × String)) (s : GHState) :
    ∃ l, ghMapM (fun f => ghBind (ghCreateBlob f.2) fun sha => ghPure (⟨f.1, sha⟩ : TreeEntry))
        files s = (Except.ok (allocBlobs files s).1, (allocBlobs files s).2, l) := by
  induction files generalizing s with
  | nil => exact ⟨[], rfl⟩
  | cons f rest ih =>
    obtain ⟨l, hl⟩ := ih { s with blobs := (s.fresh, f.2) :: s.blobs, fresh := s.fresh + 1 }
    refine ⟨GHCall.createBlob f.2 :: l, ?_⟩
    simp [ghMapM, ghBind, ghCreateBlob, ghPure, hl, allocBlobs]


/-! ## Lemmas: characterizations of the protocol stages -/

theorem ghBind_eq_ok2 {α β : Type} {m : GHM α} {f : α → GHM β} {s s1 : GHState}
    {a : α} {l1 : List GHCall} (h : m s = (Except.ok a, s1, l1)) :
    ghBind m f s = ((f a s1).1, (f a s1).2.1, l1 ++ (f a s1).2.2) := by
  simp [ghBind, h]

theorem ghBind_log (m : GHM α) (f : α → GHM β) (s : GHState) :
    ∃ l2, (ghBind m f s).2.2 = (m s).2.2 ++ l2 := by
  rcases h : m s with ⟨r, st, lg⟩
  cases r with
  | ok a => exact ⟨(f a st).2.2, by simp [ghBind, h]⟩
  | error e => exact ⟨[], by simp [ghBind, h]⟩

theorem ghTry_log (m : GHM α) (handler : JsError → GHM α) (s : GHState) :
    ∃ l2, (ghTry m handler s).2.2 = (m s).2.2 ++ l2 := by
  rcases h : m s with ⟨r, st, lg⟩
  cases r with
  | ok a => exact ⟨[], by simp [ghTry, h]⟩
  | error e => exact ⟨(handler e st).2.2, by simp [ghTry, h]⟩

theorem ghGetRef_log (b : String) (s : GHState) :
    (ghGetRef b s).2.2 = [GHCall.getRef b] := by
  cases h : alookup b s.refs <;> simp [ghGetRef, h]

/-- Projection eta: a `GHM` result is the triple of its projections. -/
theorem ghTriple_eta {α : Type} {m : GHM α} {s : GHState} {r : Except JsError α} {st : GHState}
    (h1 : (m s).1 = r) (h2 : (m s).2.1 = st) :
    m s = (r, st, (m s).2.2) := by
  rw [← h1, ← h2]

theorem orphanCreate_none (files : List (String × String)) (b : String) (s : GHState)
    (hb : alookup b (allocBlobs files s).2.refs = none) :
    (orphanCreate files b none s).1 = Except.ok true ∧
    (orphanCreate files b none s).2.1 =
      { blobs := (allocBlobs files s).2.blobs,
        trees := ((allocBlobs files s).2.fresh, (allocBlobs files s).1) :: (allocBlobs files s).2.trees,
        commits := ((allocBlobs files s).2.fresh + 1,
                    ⟨(allocBlobs files s).2.fresh, []⟩) :: (allocBlobs files s).2.commits,
        refs := (b, (allocBlobs files s).2.fresh + 1) :: (allocBlobs files s).2.refs,
        pulls := (allocBlobs files s).2.pulls,
        fresh := (allocBlobs files s).2.fresh + 2 } := by
  obtain ⟨lm, hm⟩ := allocBlobs_mapM files s
  constructor <;>
    simp [orphanCreate, ghBind, ghTry, ghCreateTree, ghCreateCommit, interferePoint,
          ghCreateRef, ghPure, hm, hb]

theorem orphanCreate_interfered (files : List (String × String)) (b : String) (s : GHState)
    (x : Nat) (hb : alookup b (allocBlobs files s).2.refs = none) :
    (orphanCreate files b (some x) s).1 = Except.ok false ∧
    (orphanCreate files b (some x) s).2.1 =
      { blobs := (allocBlobs files s).2.blobs,
        trees := ((allocBlobs files s).2.fresh, (allocBlobs files s).1) :: (allocBlobs files s).2.trees,
        commits := ((allocBlobs files s).2.fresh + 1,
                    ⟨(allocBlobs files s).2.fresh, []⟩) :: (allocBlobs files s).2.commits,
        refs := (b, x) :: (allocBlobs files s).2.refs,
        pulls := (allocBlobs files s).2.pulls,
        fresh := (allocBlobs files s).2.fresh + 2 } := by
  obtain ⟨lm, hm⟩ := allocBlobs_mapM files s
  constructor <;>
    simp [orphanCreate, ghBind, ghTry, ghCreateTree, ghCreateCommit, interferePoint,
          ghCreateRef, ghPure, ghThrow, conflictErr, alookup, hm, hb]

theorem ensureOrphanBranch_found (files : List (String × String)) (i : Option Nat)
    {b : String} {s : GHState} {sha : Nat} (h : alookup b s.refs = some sha) :
    ensureOrphanBranch files b i s = (Except.ok false, s, [GHCall.getRef b]) := by
  simp [ensureOrphanBranch, ghTry, ghBind, ghGetRef, ghPure, h]

theorem ensureOrphanBranch_missing_proj {files : List (String × String)} {b : String}
    {i : Option Nat} {s : GHState} (hb : alookup b s.refs = none) :
    (ensureOrphanBranch files b i s).1 = (orphanCreate files b i s).1 ∧
    (ensureOrphanBranch files b i s).2.1 = (orphanCreate files b i s).2.1 := by
  constructor <;>
    simp [ensureOrphanBranch, ghTry, ghBind, ghGetRef, ghPure, ghThrow, notFoundErr, hb]

theorem ensureBranch_found (src : String) {b : String} {s : GHState} {sha : Nat}
    (h : alookup b s.refs = some sha) :
    ensureBranch b src s = (Except.ok (), s, [GHCall.getRef b]) := by
  simp [ensureBranch, ghTry, ghBind, ghGetRef, ghPure, h]

theorem ensureBranchMissing_creates {b src : String} {s : GHState} {sha : Nat}
    (hb : alookup b s.refs = none) (hsrc : alookup src s.refs = some sha) :
    ensureBranchMissing b src s =
      (Except.ok (), { s with refs := (b, sha) :: s.refs },
       [GHCall.getRef src, GHCall.createRef b sha]) := by
  simp [ensureBranchMissing, ghBind, ghTry, ghGetRef, ghCreateRef, ghPure, hb, hsrc]

theorem ensureBranch_creates {b src : String} {s : GHState} {sha : Nat}
    (hb : alookup b s.refs = none) (hsrc : alookup src s.refs = some sha) :
    ensureBranch b src s =
      (Except.ok (), { s with refs := (b, sha) :: s.refs },
       [GHCall.getRef b, GHCall.getRef src, GHCall.createRef b sha]) := by
  have h1 := ensureBranchMissing_creates hb hsrc
  simp [ensureBranch, ghTry, ghBind, ghGetRef, ghPure, ghThrow, notFoundErr, hb, h1]

theorem alookup_cons_present {κ α : Type} [DecidableEq κ] {k k' : κ} {v : α}
    {rest : List (κ × α)} (h : alookup k rest ≠ none) :
    alookup k ((k', v) :: rest) ≠ none := by
  by_cases he : k = k' <;> simp [alookup, he, h]

theorem putApply_pulls (s : GHState) (b p c : String) (h : Nat) :
    (putApply s b p c h).pulls = s.pulls := rfl

theorem putApply_refs (s : GHState) (b p c : String) (h : Nat) :
    (putApply s b p c h).refs = (b, s.fresh + 2) :: s.refs := rfl

theorem upsertOne_skip {b : String} {f : String × String} {s : GHState} {sha : Nat}
    (h : fileAt s b f.1 = some (f.2, sha)) :
    upsertOne b f s = (Except.ok (), s, [GHCall.getContents b f.1]) := by
  simp [upsertOne, ghBind, ghTry, ghGetContents, ghPure, h]

theorem upsertOne_update {b : String} {f : String × String} {s : GHState} {c : String}
    {sha headSha : Nat} (h : fileAt s b f.1 = some (c, sha)) (hne : c ≠ f.2)
    (hbr : alookup b s.refs = some headSha) :
    upsertOne b f s = (Except.ok (), putApply s b f.1 f.2 headSha,
      [GHCall.getContents b f.1, GHCall.putContents b f.1 f.2 (some sha)]) := by
  simp [upsertOne, ghBind, ghTry, ghGetContents, ghPure, ghPutContents, h, hne, hbr]

theorem upsertOne_new {b : String} {f : String × String} {s : GHState} {headSha : Nat}
    (h : fileAt s b f.1 = none) (hbr : alookup b s.refs = some headSha) :
    upsertOne b f s = (Except.ok (), putApply s b f.1 f.2 headSha,
      [GHCall.getContents b f.1, GHCall.putContents b f.1 f.2 none]) := by
  simp [upsertOne, ghBind, ghTry, ghGetContents, ghPure, ghPutContents, notFoundErr, h, hbr]

theorem upsertOne_ok (b : String) (f : String × String) (s : GHState) {headSha : Nat}
    (hbr : alookup b s.refs = some headSha) :
    upsertOne b f s = (Except.ok (), s, [GHCall.getContents b f.1]) ∨
    ∃ sh, upsertOne b f s = (Except.ok (), putApply s b f.1 f.2 headSha,
      [GHCall.getContents b f.1, GHCall.putContents b f.1 f.2 sh]) := by
  rcases h : fileAt s b f.1 with _ | ⟨c, sha⟩
  · exact Or.inr ⟨none, upsertOne_new h hbr⟩
  · by_cases hc : c = f.2
    · subst hc; exact Or.inl (upsertOne_skip h)
    · exact Or.inr ⟨some sha, upsertOne_update h hc hbr⟩

theorem pushOne_ok (b : String) (f : String × String) (s : GHState) {headSha : Nat}
    (hbr : alookup b s.refs = some headSha) :
    ∃ sh, pushOne b f s = (Except.ok (), putApply s b f.1 f.2 headSha,
      [GHCall.getContents b f.1, GHCall.putContents b f.1 f.2 sh]) := by
  rcases h : fileAt s b f.1 with _ | ⟨c, sha⟩
  · exact ⟨none, by simp [pushOne, ghBind, ghTry, ghGetContents, ghPure, ghPutContents,
      notFoundErr, h, hbr]⟩
  · exact ⟨some sha, by simp [pushOne, ghBind, ghTry, ghGetContents, ghPure, ghPutContents,
      h, hbr]⟩

theorem upsertFiles_noop (files : List (String × String)) (b : String) (s : GHState)
    (h : ∀ f ∈ files, ∃ sha, fileAt s b f.1 = some (f.2, sha)) :
    upsertBootstrapFiles files b s =
      (Except.ok (), s, files.map fun f => GHCall.getContents b f.1) := by
  simp only [upsertBootstrapFiles]
  induction files with
  | nil => simp [ghForM, ghPure]
  | cons f rest ih =>
    obtain ⟨sha, hf⟩ := h f (by simp)
    have h1 := upsertOne_skip hf
    have hrest := ih (fun f' hm => h f' (by simp [hm]))
    simp [ghForM, ghBind, h1, hrest]

theorem upsertFiles_ok (files : List (String × String)) (b : String) (s : GHState)
    (hbr : alookup b s.refs ≠ none) :
    (upsertBootstrapFiles files b s).1 = Except.ok () ∧
    ((upsertBootstrapFiles files b s).2.1).pulls = s.pulls ∧
    (∀ b', alookup b' s.refs ≠ none → alookup b' ((upsertBootstrapFiles files b s).2.1).refs ≠ none) ∧
    (∀ f ∈ files, GHCall.getContents b f.1 ∈ (upsertBootstrapFiles files b s).2.2) := by
  simp only [upsertBootstrapFiles]
  induction files generalizing s with
  | nil => simp [ghForM, ghPure]
  | cons f rest ih =>
    obtain ⟨headSha, hhead⟩ := Option.ne_none_iff_exists'.mp hbr
    rcases upsertOne_ok b f s hhead with htrip | ⟨sh, htrip⟩
    · obtain ⟨ih1, ih2, ih3, ih4⟩ := ih s hbr
      refine ⟨?_, ?_, ?_, ?_⟩
      · simp [ghForM, ghBind, htrip, ih1]
      · simp [ghForM, ghBind, htrip, ih2]
      · intro b' hb'
        simpa [ghForM, ghBind, htrip] using ih3 b' hb'
      · intro f' hm
        rcases List.mem_cons.mp hm with hm | hm
        · subst hm; simp [ghForM, ghBind, htrip]
        · simp [ghForM, ghBind, htrip, ih4 f' hm]
    · have hbr' : alookup b (putApply s b f.1 f.2 headSha).refs ≠ none := by
        rw [putApply_refs]; simp [alookup]
      obtain ⟨ih1, ih2, ih3, ih4⟩ := ih (putApply s b f.1 f.2 headSha) hbr'
      refine ⟨?_, ?_, ?_, ?_⟩
      · simp [ghForM, ghBind, htrip, ih1]
      · simp [ghForM, ghBind, htrip, ih2, putApply_pulls]
      · intro b' hb'
        have : alookup b' (putApply s b f.1 f.2 headSha).refs ≠ none := by
          rw [putApply_refs]; exact alookup_cons_present hb'
        simpa [ghForM, ghBind, htrip] using ih3 b' this
      · intro f' hm
        rcases List.mem_cons.mp hm with hm | hm
        · subst hm; simp [ghForM, ghBind, htrip]
        · simp [ghForM, ghBind, htrip, ih4 f' hm]

theorem pushFiles_ok (files : List (String × String)) (b : String) (s : GHState)
    (hbr : alookup b s.refs ≠ none) :
    (pushFiles files b s).1 = Except.ok () ∧
    ((pushFiles files b s).2.1).pulls = s.pulls ∧
    (∀ b', alookup b' s.refs ≠ none → alookup b' ((pushFiles files b s).2.1).refs ≠ none) := by
  simp only [pushFiles]
  induction files generalizing s with
  | nil => simp [ghForM, ghPure]
  | cons f rest ih =>
    obtain ⟨headSha, hhead⟩ := Option.ne_none_iff_exists'.mp hbr
    obtain ⟨sh, htrip⟩ := pushOne_ok b f s hhead
    have hbr' : alookup b (putApply s b f.1 f.2 headSha).refs ≠ none := by
      rw [putApply_refs]; simp [alookup]
    obtain ⟨ih1, ih2, ih3⟩ := ih (putApply s b f.1 f.2 headSha) hbr'
    refine ⟨?_, ?_, ?_⟩
    · simp [ghForM, ghBind, htrip, ih1]
    · simp [ghForM, ghBind, htrip, ih2, putApply_pulls]
    · intro b' hb'
      have : alookup b' (putApply s b f.1 f.2 headSha).refs ≠ none := by
        rw [putApply_refs]; exact alookup_cons_present hb'
      simpa [ghForM, ghBind, htrip] using ih3 b' this

theorem ensureProject_invalid {files : List (String × String)} {i : Option Nat}
    {p : String} {s : GHState} (h : validProject p = false) :
    ensureProject files i p s = (Except.error ⟨none, invalidProjectMsg p⟩, s, []) := by
  simp [ensureProject, h, ghThrow]

theorem dev_ne_master (p : String) : devBranchOf p ≠ masterBranchOf p := by
  intro h
  have hlen := congrArg String.length h
  have h4 : ("-dev" : String).length = 4 := rfl
  have h7 : ("-master" : String).length = 7 := rfl
  rw [devBranchOf, masterBranchOf, String.length_append, String.length_append, h4, h7] at hlen
  omega

theorem master_ne_dev (p : String) : masterBranchOf p ≠ devBranchOf p :=
  (dev_ne_master p).symm

theorem ensureProject_fresh (files : List (String × String)) (p : String) (s : GHState)
    (hv : validProject p = true) (hm : alookup (masterBranchOf p) s.refs = none) :
    (ensureProject files none p s).1 = Except.ok (masterBranchOf p, devBranchOf p) ∧
    alookup (masterBranchOf p) ((ensureProject files none p s).2.1).refs
      = some ((allocBlobs files s).2.fresh + 1) ∧
    alookup ((allocBlobs files s).2.fresh + 1) ((ensureProject files none p s).2.1).commits
      = some ⟨(allocBlobs files s).2.fresh, []⟩ ∧
    alookup (allocBlobs files s).2.fresh ((ensureProject files none p s).2.1).trees
      = some (allocBlobs files s).1 ∧
    ((ensureProject files none p s).2.1).blobs = (allocBlobs files s).2.blobs ∧
    alookup (devBranchOf p) ((ensureProject files none p s).2.1).refs ≠ none ∧
    ((ensureProject files none p s).2.1).pulls = s.pulls := by
  have hne := dev_ne_master p
  have hne' := master_ne_dev p
  obtain ⟨lm, hmapM⟩ := allocBlobs_mapM files s
  obtain ⟨hr, ht, hc, hp, hfr, -⟩ := allocBlobs_state files s
  rcases hd : alookup (devBranchOf p) s.refs with _ | dsha <;>
    refine ⟨?_, ?_, ?_, ?_, ?_, ?_, ?_⟩ <;>
      simp [ensureProject, ensureOrphanBranch, orphanCreate, ensureBranch, ensureBranchMissing,
            ghBind, ghTry, ghGetRef, ghCreateRef, ghCreateTree, ghCreateCommit, interferePoint,
            ghPure, ghThrow, notFoundErr, conflictErr, alookup,
            hv, hm, hd, hmapM, hr, hp, hne, hne']

theorem ensureProject_existing (files : List (String × String)) (p : String) (s : GHState)
    {msha : Nat} (hv : validProject p = true)
    (hmaster : alookup (masterBranchOf p) s.refs = some msha) :
    (ensureProject files none p s).1 = Except.ok (masterBranchOf p, devBranchOf p) ∧
    ((ensureProject files none p s).2.1).pulls = s.pulls ∧
    alookup (devBranchOf p) ((ensureProject files none p s).2.1).refs ≠ none := by
  have h1 := ensureOrphanBranch_found files none hmaster
  obtain ⟨u1, u2, u3, u4⟩ := upsertFiles_ok files (masterBranchOf p) s (by simp [hmaster])
  rcases hup : upsertBootstrapFiles files (masterBranchOf p) s with ⟨upr, upS, upL⟩
  rw [hup] at u1 u2 u3
  simp only [] at u1 u2 u3
  subst u1
  have hmb' : alookup (masterBranchOf p) upS.refs ≠ none := u3 _ (by simp [hmaster])
  obtain ⟨msha', hmsha'⟩ := Option.ne_none_iff_exists'.mp hmb'
  rcases hd : alookup (devBranchOf p) upS.refs with _ | dsha
  · have h3 := ensureBranch_creates hd hmsha'
    refine ⟨?_, ?_, ?_⟩ <;>
      simp [ensureProject, hv, ghBind, ghPure, h1, hup, h3, u2, alookup]
  · have h3 := ensureBranch_found (masterBranchOf p) hd
    refine ⟨?_, ?_, ?_⟩ <;>
      simp [ensureProject, hv, ghBind, ghPure, h1, hup, h3, u2, hd]

theorem ensureProject_ok (files : List (String × String)) (p : String) (s : GHState)
    (hv : validProject p = true) :
    (ensureProject files none p s).1 = Except.ok (masterBranchOf p, devBranchOf p) ∧
    ((ensureProject files none p s).2.1).pulls = s.pulls ∧
    alookup (devBranchOf p) ((ensureProject files none p s).2.1).refs ≠ none := by
  rcases hmb : alookup (masterBranchOf p) s.refs with _ | msha
  · obtain ⟨h1, _, _, _, _, h6, h7⟩ := ensureProject_fresh files p s hv hmb
    exact ⟨h1, h7, h6⟩
  · exact ensureProject_existing files p s hv hmb

theorem ensureProject_remote_first (files : List (String × String)) (i : Option Nat)
    (p : String) (s : GHState) (hv : validProject p = true) :
    ∃ rest, (ensureProject files i p s).2.2 = GHCall.getRef (masterBranchOf p) :: rest := by
  rcases hmb : alookup (masterBranchOf p) s.refs with _ | msha
  · have h1 : ghBind (ghGetRef (masterBranchOf p)) (fun _ => ghPure false) s =
        (Except.error notFoundErr, s, [GHCall.getRef (masterBranchOf p)]) := by
      simp [ghBind, ghGetRef, hmb]
    rcases hoc : orphanCreate files (masterBranchOf p) i s with ⟨ocr, ocS, ocL⟩
    have h2 : ensureOrphanBranch files (masterBranchOf p) i s =
        (ocr, ocS, GHCall.getRef (masterBranchOf p) :: ocL) := by
      simp [ensureOrphanBranch, ghTry, h1, notFoundErr, hoc]
    cases ocr with
    | ok mv =>
      simp [ensureProject, hv, ghBind, h2]
    | error e =>
      simp [ensureProject, hv, ghBind, h2]
  · have h2 := ensureOrphanBranch_found files i hmb
    simp [ensureProject, hv, ghBind, h2]

theorem ensureProject_interfered (files : List (String × String)) (p : String) (s : GHState)
    (x : Nat) (hv : validProject p = true)
    (hm : alookup (masterBranchOf p) s.refs = none) :
    (ensureProject files (some x) p s).1 = Except.ok (masterBranchOf p, devBranchOf p) ∧
    ∀ f ∈ files, GHCall.getContents (masterBranchOf p) f.1 ∈ (ensureProject files (some x) p s).2.2 := by
  have hb2 : alookup (masterBranchOf p) (allocBlobs files s).2.refs = none := by
    obtain ⟨hr, -, -, -, -, -⟩ := allocBlobs_state files s
    rw [hr]; exact hm
  obtain ⟨o1, o2⟩ := orphanCreate_interfered files (masterBranchOf p) s x hb2
  rcases hoc : orphanCreate files (masterBranchOf p) (some x) s with ⟨ocr, ocS, ocL⟩
  rw [hoc] at o1 o2
  simp only [] at o1 o2
  subst o1
  have h2 : ensureOrphanBranch files (masterBranchOf p) (some x) s =
      (Except.ok false, ocS, GHCall.getRef (masterBranchOf p) :: ocL) := by
    have h1 : ghBind (ghGetRef (masterBranchOf p)) (fun _ => ghPure false) s =
        (Except.error notFoundErr, s, [GHCall.getRef (masterBranchOf p)]) := by
      simp [ghBind, ghGetRef, hm]
    simp [ensureOrphanBranch, ghTry, h1, notFoundErr, hoc]
  have hmbOc : alookup (masterBranchOf p) ocS.refs = some x := by
    rw [o2]; simp [alookup]
  obtain ⟨u1, u2, u3, u4⟩ := upsertFiles_ok files (masterBranchOf p) ocS (by simp [hmbOc])
  rcases hup : upsertBootstrapFiles files (masterBranchOf p) ocS with ⟨upr, upS, upL⟩
  rw [hup] at u1 u2 u3 u4
  simp only [] at u1 u2 u3 u4
  subst u1
  have hmb' : alookup (masterBranchOf p) upS.refs ≠ none := u3 _ (by simp [hmbOc])
  obtain ⟨msha', hmsha'⟩ := Option.ne_none_iff_exists'.mp hmb'
  rcases hd : alookup (devBranchOf p) upS.refs with _ | dsha
  · have h3 := ensureBranch_creates hd hmsha'
    constructor
    · simp [ensureProject, hv, ghBind, ghPure, h2, hup, h3]
    · intro f hf
      simp [ensureProject, hv, ghBind, ghPure, h2, hup, h3, u4 f hf]
  · have h3 := ensureBranch_found (masterBranchOf p) hd
    constructor
    · simp [ensureProject, hv, ghBind, ghPure, h2, hup, h3]
    · intro f hf
      simp [ensureProject, hv, ghBind, ghPure, h2, hup, h3, u4 f hf]

theorem createRefAbsorb_ok (b : String) (sha : Nat) (s : GHState) :
    ∃ s', ghTry (ghCreateRef b sha) (fun e => if e.status ≠ some 422 then ghThrow e else ghPure ()) s
        = (Except.ok (), s', [GHCall.createRef b sha]) ∧
      alookup b s'.refs ≠ none ∧ s'.pulls = s.pulls := by
  rcases h : alookup b s.refs with _ | sha0
  · exact ⟨{ s with refs := (b, sha) :: s.refs },
      by simp [ghTry, ghCreateRef, h], by simp [alookup], rfl⟩
  · exact ⟨s, by simp [ghTry, ghCreateRef, h, ghThrow, ghPure, conflictErr], by simp [h], rfl⟩

theorem ghTry_addLabels (n : Nat) (ls : List String) (handler : JsError → GHM Unit) (s : GHState) :
    ghTry (ghAddLabels n ls) handler s = (Except.ok (), s, [GHCall.addLabels n ls]) := by
  simp [ghTry, ghAddLabels]

theorem createFeatBranch_spec (bfiles : List (String × String)) (freshId : String)
    (p : String) (files : List (String × String)) (featName : Option String)
    (labels : List String) (s : GHState)
    (hv : validProject p = true) (hf : files ≠ []) :
    ∃ pr : PullReq,
      (createFeatBranch bfiles freshId p files featName labels s).1 =
        Except.ok ⟨featIdOf featName freshId, "feat/" ++ featIdOf featName freshId,
                   p, devBranchOf p, pr.number, pr.url⟩ ∧
      ((s.pulls.filter (prMatches ("feat/" ++ featIdOf featName freshId) (devBranchOf p)) = [] ∧
        pr.head = "feat/" ++ featIdOf featName freshId ∧ pr.base = devBranchOf p ∧
        pr.isOpen = true ∧
        ((createFeatBranch bfiles freshId p files featName labels s).2.1).pulls = s.pulls ++ [pr])
       ∨ (∃ rest, s.pulls.filter (prMatches ("feat/" ++ featIdOf featName freshId) (devBranchOf p))
            = pr :: rest ∧
          ((createFeatBranch bfiles freshId p files featName labels s).2.1).pulls = s.pulls)) := by
  have hp : p ≠ "" := by
    intro he; subst he
    simp [validProject] at hv
  have hfe : files.isEmpty = false := by
    cases files with
    | nil => exact absurd rfl hf
    | cons a b => rfl
  obtain ⟨e1, e2, e3⟩ := ensureProject_ok bfiles p s hv
  rcases hep : ensureProject bfiles none p s with ⟨epr, epS, epL⟩
  rw [hep] at e1 e2 e3
  simp only [] at e1 e2 e3
  subst e1
  obtain ⟨dsha, hdsha⟩ := Option.ne_none_iff_exists'.mp e3
  have h4 : ghGetRef (devBranchOf p) epS = (Except.ok dsha, epS, [GHCall.getRef (devBranchOf p)]) :=
    ghGetRef_some hdsha
  obtain ⟨s5, h5, h5b, h5p⟩ := createRefAbsorb_ok ("feat/" ++ featIdOf featName freshId) dsha epS
  simp only [ne_eq, ite_not] at h5
  obtain ⟨p1, p2, p3⟩ := pushFiles_ok files ("feat/" ++ featIdOf featName freshId) s5 h5b
  rcases hpush : pushFiles files ("feat/" ++ featIdOf featName freshId) s5 with ⟨pr0, pushS, pushL⟩
  rw [hpush] at p1 p2 p3
  simp only [] at p1 p2 p3
  subst p1
  have hpp : pushS.pulls = s.pulls := by rw [p2, h5p, e2]
  rcases hfil : s.pulls.filter (prMatches ("feat/" ++ featIdOf featName freshId) (devBranchOf p))
    with _ | ⟨pr, rest⟩
  · refine ⟨⟨pushS.fresh, "feat/" ++ featIdOf featName freshId, devBranchOf p, true,
        mkPrUrl pushS.fresh⟩, ?_, Or.inl ⟨rfl, rfl, rfl, rfl, ?_⟩⟩ <;>
      simp [createFeatBranch, hp, hfe, ghBind, ghPure, ghListPulls, ghCreatePull,
            ghTry_addLabels, hep, h4, h5, hpush, hpp, hfil]
  · refine ⟨pr, ?_, Or.inr ⟨rest, rfl, ?_⟩⟩ <;>
      simp [createFeatBranch, hp, hfe, ghBind, ghPure, ghListPulls, ghCreatePull,
            ghTry_addLabels, hep, h4, h5, hpush, hpp, hfil]

theorem startsWithChars_refl_append (n rest : List Char) :
    startsWithChars n (n ++ rest) = true := by
  induction n with
  | nil => rfl
  | cons a as ih => simp [startsWithChars, ih]

theorem hasSubChars_of_starts {needle hay : List Char}
    (h : startsWithChars needle hay = true) : hasSubChars needle hay = true := by
  cases hay with
  | nil => simpa [hasSubChars] using h
  | cons a t => simp [hasSubChars, h]

theorem invalidMsg_includes (p : String) :
    strIncludes (invalidProjectMsg p) "Invalid project" = true := by
  unfold strIncludes invalidProjectMsg
  have hsplit :
      ("Invalid project name: \"" ++ p ++ "\". Use only letters, numbers, hyphens, underscores.").toList
        = ("Invalid project").toList ++
          ((" name: \"").toList ++ (p.toList ++ ("\". Use only letters, numbers, hyphens, underscores.").toList)) := by
    show (_ : String).data = _
    simp [String.data_append]
  rw [hsplit]
  exact hasSubChars_of_starts (startsWithChars_refl_append _ _)

theorem bootstrapErrorStatus_invalid (p : String) :
    bootstrapErrorStatus (invalidProjectMsg p) = 400 := by
  simp [bootstrapErrorStatus, invalidMsg_includes]

theorem forall₂_path_map {files : List (String × String)} {es : List TreeEntry}
    {B : List (Nat × String)}
    (h : List.Forall₂ (fun (f : String × String) (e : TreeEntry) =>
      e.path = f.1 ∧ alookup e.sha B = some f.2) files es) :
    es.map TreeEntry.path = files.map Prod.fst := by
  induction h with
  | nil => rfl
  | cons hR _ ih => simp [hR.1, ih]

theorem entFind_forall {files : List (String × String)} {es : List TreeEntry}
    {B : List (Nat × String)}
    (hall : List.Forall₂ (fun (f : String × String) (e : TreeEntry) =>
      e.path = f.1 ∧ alookup e.sha B = some f.2) files es)
    (hnd : (files.map Prod.fst).Nodup) :
    ∀ f ∈ files, ∃ e : TreeEntry, entFind f.1 es = some e ∧ alookup e.sha B = some f.2 := by
  induction hall with
  | nil => intro f hf; simp at hf
  | @cons g e0 rest es' hR hall ih =>
    intro f hf
    rcases List.mem_cons.mp hf with rfl | hf'
    · exact ⟨e0, by simp [entFind, hR.1], hR.2⟩
    · have hnd2 : (g.1 :: rest.map Prod.fst).Nodup := by simpa using hnd
      have hnd' := List.nodup_cons.mp hnd2
      have hne : e0.path ≠ f.1 := by
        rw [hR.1]
        intro he
        exact hnd'.1 (he ▸ List.mem_map_of_mem Prod.fst hf')
      obtain ⟨e, he1, he2⟩ := ih hnd'.2 f hf'
      exact ⟨e, by simp [entFind, hne, he1], he2⟩

/-! ## Theorems: ensureProject validation (C9) -/

/-- C9: `ensureProject` validates the project identifier first: validity is
exactly "non-empty and every character in `[A-Za-z0-9_-]`"; an invalid name
fails immediately with the validation error — no remote call is issued (the
call log is empty, the remote state untouched) — and the server maps that
error to HTTP 400; a valid name passes validation and the first thing the
function does is a remote read of `{project}-master`'s ref. -/
theorem ensureProject_validation (files : List (String × String)) (i : Option Nat)
    (p : String) (s : GHState) :
    (validProject p = true ↔ p ≠ "" ∧ ∀ ch ∈ p.toList, allowedProjChar ch = true) ∧
    (validProject p = false →
      ensureProject files i p s = (Except.error ⟨none, invalidProjectMsg p⟩, s, []) ∧
      bootstrapErrorStatus (invalidProjectMsg p) = 400) ∧
    (validProject p = true →
      ∃ rest, (ensureProject files i p s).2.2 = GHCall.getRef (masterBranchOf p) :: rest) := by
  refine ⟨?_, ?_, ?_⟩
  · simp [validProject, List.all_eq_true, bne_iff_ne]
  · intro h; exact ⟨ensureProject_invalid h, bootstrapErrorStatus_invalid p⟩
  · intro h; exact ensureProject_remote_first files i p s h

theorem ensureProject_validation_witness :
    (validProject "proj-a" = true ↔
      "proj-a" ≠ "" ∧ ∀ ch ∈ ("proj-a" : String).toList, allowedProjChar ch = true) ∧
    (ensureProject [] none "bad name!" GHState.init =
       (Except.error ⟨none, invalidProjectMsg "bad name!"⟩, GHState.init, []) ∧
     bootstrapErrorStatus (invalidProjectMsg "bad name!") = 400) ∧
    (∃ rest, (ensureProject [] none "proj-a" GHState.init).2.2 =
       GHCall.getRef (masterBranchOf "proj-a") :: rest) :=
  ⟨(ensureProject_validation [] none "proj-a" GHState.init).1,
   (ensureProject_validation [] none "bad name!" GHState.init).2.1 (by decide),
   (ensureProject_validation [] none "proj-a" GHState.init).2.2 (by decide)⟩

/-! ## Theorems: orphan bootstrap (C5) -/

/-- C5: when `{project}-master` is absent, `ensureProject` creates it through
a tree built with no base tree — the committed root tree holds exactly the
bootstrap file paths, nothing inherited — and a root commit with no parents;
and if a concurrent caller creates the branch ref between our commit
creation and our ref creation (the 422 conflict), the branch is treated as
already existing and execution falls through to the upsert step — the call
still succeeds and reads every bootstrap file on the branch — instead of
erroring. -/
theorem ensureProject_orphan_bootstrap (files : List (String × String)) (p : String)
    (s : GHState) (x : Nat) (hv : validProject p = true)
    (hm : alookup (masterBranchOf p) s.refs = none) :
    ((ensureProject files none p s).1 = Except.ok (masterBranchOf p, devBranchOf p) ∧
     ∃ cid tid es,
       alookup (masterBranchOf p) ((ensureProject files none p s).2.1).refs = some cid ∧
       alookup cid ((ensureProject files none p s).2.1).commits = some ⟨tid, []⟩ ∧
       alookup tid ((ensureProject files none p s).2.1).trees = some es ∧
       es.map TreeEntry.path = files.map Prod.fst) ∧
    ((ensureProject files (some x) p s).1 = Except.ok (masterBranchOf p, devBranchOf p) ∧
     ∀ f ∈ files,
       GHCall.getContents (masterBranchOf p) f.1 ∈ (ensureProject files (some x) p s).2.2) := by
  constructor
  · obtain ⟨h1, h2, h3, h4, h5, h6, h7⟩ := ensureProject_fresh files p s hv hm
    exact ⟨h1, _, _, _, h2, h3, h4, forall₂_path_map (allocBlobs_entries files s)⟩
  · exact ensureProject_interfered files p s x hv hm

theorem ensureProject_orphan_bootstrap_witness :
    (validProject "proj-a" = true ∧
     alookup (masterBranchOf "proj-a") GHState.init.refs = none) ∧
    (((ensureProject [(".github/workflows/ci.yml", "name: ci"),
        (".github/scripts/review.js", "review")] none "proj-a" GHState.init).1 =
          Except.ok (masterBranchOf "proj-a", devBranchOf "proj-a") ∧
      ∃ cid tid es,
        alookup (masterBranchOf "proj-a")
          ((ensureProject [(".github/workflows/ci.yml", "name: ci"),
            (".github/scripts/review.js", "review")] none "proj-a" GHState.init).2.1).refs = some cid ∧
        alookup cid
          ((ensureProject [(".github/workflows/ci.yml", "name: ci"),
            (".github/scripts/review.js", "review")] none "proj-a" GHState.init).2.1).commits
          = some ⟨tid, []⟩ ∧
        alookup tid
          ((ensureProject [(".github/workflows/ci.yml", "name: ci"),
            (".github/scripts/review.js", "review")] none "proj-a" GHState.init).2.1).trees
          = some es ∧
        es.map TreeEntry.path =
          [(".github/workflows/ci.yml", "name: ci"),
           (".github/scripts/review.js", "review")].map Prod.fst) ∧
     ((ensureProject [(".github/workflows/ci.yml", "name: ci"),
        (".github/scripts/review.js", "review")] (some 99) "proj-a" GHState.init).1 =
          Except.ok (masterBranchOf "proj-a", devBranchOf "proj-a") ∧
      ∀ f ∈ [(".github/workflows/ci.yml", "name: ci"), (".github/scripts/review.js", "review")],
        GHCall.getContents (masterBranchOf "proj-a") f.1 ∈
          (ensureProject [(".github/workflows/ci.yml", "name: ci"),
            (".github/scripts/review.js", "review")] (some 99) "proj-a" GHState.init).2.2)) :=
  ⟨⟨by decide, rfl⟩,
   ensureProject_orphan_bootstrap _ "proj-a" GHState.init 99 (by decide) rfl⟩

/-! ## Theorems: bootstrap idempotence (C7) -/

theorem filter_isWrite_getContents (b : String) (files : List (String × String)) :
    ((files.map fun f => GHCall.getContents b f.1).filter GHCall.isWrite) = [] := by
  induction files with
  | nil => rfl
  | cons f rest ih => simp [GHCall.isWrite, ih]

/-- C7: `ensureProject` invoked twice in sequence for the same new project is
idempotent: the first call succeeds and returns the branch-name pair; the
second call returns the very same pair, leaves the remote state exactly as
the first call left it, and its call log is one master-ref read, one
contents read per bootstrap file (each found byte-identical and skipped) and
one dev-ref read — it contains no content-changing write. -/
theorem ensureProject_idempotent (files : List (String × String)) (p : String) (s : GHState)
    (hv : validProject p = true)
    (hm : alookup (masterBranchOf p) s.refs = none)
    (hnd : (files.map Prod.fst).Nodup) :
    (ensureProject files none p s).1 = Except.ok (masterBranchOf p, devBranchOf p) ∧
    ensureProject files none p ((ensureProject files none p s).2.1) =
      (Except.ok (masterBranchOf p, devBranchOf p),
       (ensureProject files none p s).2.1,
       GHCall.getRef (masterBranchOf p)
         :: ((files.map fun f => GHCall.getContents (masterBranchOf p) f.1)
             ++ [GHCall.getRef (devBranchOf p)])) ∧
    (GHCall.getRef (masterBranchOf p)
       :: ((files.map fun f => GHCall.getContents (masterBranchOf p) f.1)
           ++ [GHCall.getRef (devBranchOf p)])).filter GHCall.isWrite = [] := by
  obtain ⟨h1, h2, h3, h4, h5, h6, h7⟩ := ensureProject_fresh files p s hv hm
  rcases hS1 : ensureProject files none p s with ⟨r1, S1, L1⟩
  rw [hS1] at h1 h2 h3 h4 h5 h6
  simp only [] at h1 h2 h3 h4 h5 h6
  subst h1
  have hfa : ∀ f ∈ files, ∃ sha,
      fileAt S1 (masterBranchOf p) f.1 = some (f.2, sha) := by
    intro f hf
    obtain ⟨e, he1, he2⟩ := entFind_forall (allocBlobs_entries files s) hnd f hf
    exact ⟨e.sha, by simp [fileAt, branchEntries, h2, h3, h4, h5, he1, he2]⟩
  have hfound := ensureOrphanBranch_found files none h2
  have hup := upsertFiles_noop files (masterBranchOf p) S1 hfa
  obtain ⟨dsha, hdsha⟩ := Option.ne_none_iff_exists'.mp h6
  have hdev := ensureBranch_found (masterBranchOf p) hdsha
  refine ⟨rfl, ?_, ?_⟩
  · simp [ensureProject, hv, ghBind, ghPure, hfound, hup, hdev]
  · simp [GHCall.isWrite, filter_isWrite_getContents]

theorem ensureProject_idempotent_witness :
    (validProject "proj-a" = true ∧
     alookup (masterBranchOf "proj-a") GHState.init.refs = none ∧
     ([(".github/workflows/ci.yml", "name: ci"),
       (".github/scripts/review.js", "review")].map Prod.fst).Nodup) ∧
    ((ensureProject [(".github/workflows/ci.yml", "name: ci"),
        (".github/scripts/review.js", "review")] none "proj-a" GHState.init).1 =
      Except.ok (masterBranchOf "proj-a", devBranchOf "proj-a") ∧
     ensureProject [(".github/workflows/ci.yml", "name: ci"),
        (".github/scripts/review.js", "review")] none "proj-a"
        ((ensureProject [(".github/workflows/ci.yml", "name: ci"),
          (".github/scripts/review.js", "review")] none "proj-a" GHState.init).2.1) =
      (Except.ok (masterBranchOf "proj-a", devBranchOf "proj-a"),
       (ensureProject [(".github/workflows/ci.yml", "name: ci"),
         (".github/scripts/review.js", "review")] none "proj-a" GHState.init).2.1,
       GHCall.getRef (masterBranchOf "proj-a")
         :: (([(".github/workflows/ci.yml", "name: ci"),
              (".github/scripts/review.js", "review")].map
                fun f => GHCall.getContents (masterBranchOf "proj-a") f.1)
             ++ [GHCall.getRef (devBranchOf "proj-a")])) ∧
     (GHCall.getRef (masterBranchOf "proj-a")
       :: (([(".github/workflows/ci.yml", "name: ci"),
            (".github/scripts/review.js", "review")].map
              fun f => GHCall.getContents (masterBranchOf "proj-a") f.1)
           ++ [GHCall.getRef (devBranchOf "proj-a")])).filter GHCall.isWrite = []) :=
  ⟨⟨by decide, rfl, by decide⟩,
   ensureProject_idempotent _ "proj-a" GHState.init (by decide) rfl (by decide)⟩

/-! ## Theorems: single open PR per feature branch (C4) -/

/-- C4: `createFeatBranch` enforces at most one open pull request per
feature branch: starting from a state with no open PR for
(`feat/{featId}`, `{project}-dev`), a first publish succeeds and leaves
exactly one open PR for that pair; a second invocation with the same
`feat_name` succeeds, returns that PR's number and URL (reuse), and leaves
the pull-request list unchanged — still exactly one open PR, never two. -/
theorem createFeatBranch_one_open_pr (bfiles : List (String × String)) (fresh1 fresh2 : String)
    (p : String) (files : List (String × String)) (name : String)
    (labels1 labels2 : List String) (s : GHState)
    (hv : validProject p = true) (hf : files ≠ [])
    (h0 : s.pulls.filter (prMatches ("feat/" ++ sanitizeFeatName name) (devBranchOf p)) = []) :
    ∃ r1 r2 : FeatResult,
      (createFeatBranch bfiles fresh1 p files (some name) labels1 s).1 = Except.ok r1 ∧
      (((createFeatBranch bfiles fresh1 p files (some name) labels1 s).2.1).pulls.filter
          (prMatches ("feat/" ++ sanitizeFeatName name) (devBranchOf p))).length = 1 ∧
      (createFeatBranch bfiles fresh2 p files (some name) labels2
          ((createFeatBranch bfiles fresh1 p files (some name) labels1 s).2.1)).1 =
        Except.ok r2 ∧
      r2.pr_number = r1.pr_number ∧ r2.pr_url = r1.pr_url ∧
      ((createFeatBranch bfiles fresh2 p files (some name) labels2
          ((createFeatBranch bfiles fresh1 p files (some name) labels1 s).2.1)).2.1).pulls =
        ((createFeatBranch bfiles fresh1 p files (some name) labels1 s).2.1).pulls := by
  obtain ⟨pr, hr1, hcase⟩ := createFeatBranch_spec bfiles fresh1 p files (some name) labels1 s hv hf
  simp only [featIdOf] at hr1 hcase
  rcases hcase with ⟨hfil0, hh, hb, ho, hpulls1⟩ | ⟨rest, hfil0, hpulls1⟩
  · have hprm : prMatches ("feat/" ++ sanitizeFeatName name) (devBranchOf p) pr = true := by
      simp [prMatches, hh, hb, ho]
    have hfil1 : (((createFeatBranch bfiles fresh1 p files (some name) labels1 s).2.1).pulls.filter
        (prMatches ("feat/" ++ sanitizeFeatName name) (devBranchOf p))) = [pr] := by
      rw [hpulls1, List.filter_append, h0, List.nil_append]
      simp [List.filter, hprm]
    obtain ⟨pr2, hr2, hcase2⟩ := createFeatBranch_spec bfiles fresh2 p files (some name) labels2
      ((createFeatBranch bfiles fresh1 p files (some name) labels1 s).2.1) hv hf
    simp only [featIdOf] at hr2 hcase2
    rcases hcase2 with ⟨hfil2, _, _, _, _⟩ | ⟨rest2, hfil2, hpulls2⟩
    · rw [hfil1] at hfil2; exact absurd hfil2 (by simp)
    · rw [hfil1] at hfil2
      have hpr2 : pr = pr2 ∧ [] = rest2 := by
        constructor
        · exact (List.cons.injEq pr [] pr2 rest2 ▸ hfil2).1
        · exact (List.cons.injEq pr [] pr2 rest2 ▸ hfil2).2
      refine ⟨_, _, hr1, ?_, hr2, ?_, ?_, hpulls2⟩
      · rw [hfil1]; rfl
      · simp [← hpr2.1]
      · simp [← hpr2.1]
  · rw [h0] at hfil0
    exact absurd hfil0 (by simp)

theorem createFeatBranch_one_open_pr_witness :
    (validProject "proj-a" = true ∧ ([("a.txt", "hello")] : List (String × String)) ≠ [] ∧
     GHState.init.pulls.filter
       (prMatches ("feat/" ++ sanitizeFeatName "Add-Auth") (devBranchOf "proj-a")) = []) ∧
    (∃ r1 r2 : FeatResult,
      (createFeatBranch [("w.yml", "ci")] "u1" "proj-a" [("a.txt", "hello")]
          (some "Add-Auth") [] GHState.init).1 = Except.ok r1 ∧
      (((createFeatBranch [("w.yml", "ci")] "u1" "proj-a" [("a.txt", "hello")]
          (some "Add-Auth") [] GHState.init).2.1).pulls.filter
          (prMatches ("feat/" ++ sanitizeFeatName "Add-Auth") (devBranchOf "proj-a"))).length = 1 ∧
      (createFeatBranch [("w.yml", "ci")] "u2" "proj-a" [("a.txt", "hello")]
          (some "Add-Auth") []
          ((createFeatBranch [("w.yml", "ci")] "u1" "proj-a" [("a.txt", "hello")]
            (some "Add-Auth") [] GHState.init).2.1)).1 = Except.ok r2 ∧
      r2.pr_number = r1.pr_number ∧ r2.pr_url = r1.pr_url ∧
      ((createFeatBranch [("w.yml", "ci")] "u2" "proj-a" [("a.txt", "hello")]
          (some "Add-Auth") []
          ((createFeatBranch [("w.yml", "ci")] "u1" "proj-a" [("a.txt", "hello")]
            (some "Add-Auth") [] GHState.init).2.1)).2.1).pulls =
        ((createFeatBranch [("w.yml", "ci")] "u1" "proj-a" [("a.txt", "hello")]
          (some "Add-Auth") [] GHState.init).2.1).pulls) :=
  ⟨⟨by decide, by decide, rfl⟩,
   createFeatBranch_one_open_pr [("w.yml", "ci")] "u1" "u2" "proj-a" [("a.txt", "hello")]
     "Add-Auth" [] [] GHState.init (by decide) (by decide) rfl⟩

/-! ## Theorems: featId derivation (C8, amended) -/

/-- C8 (amended): for every supplied feature name, `createFeatBranch`
derives `featId` by replacing each character outside `[a-zA-Z0-9._-]` with
`'-'` and lowercasing (`sanitizeFeatName`), and uses branch name
`feat/{featId}`; when no feature name is supplied, `featId` is the fresh
random identifier. -/
theorem createFeatBranch_featId (bfiles : List (String × String)) (freshId : String)
    (p : String) (files : List (String × String)) (name : String) (labels : List String)
    (s : GHState) (hv : validProject p = true) (hf : files ≠ []) :
    (∃ r : FeatResult,
      (createFeatBranch bfiles freshId p files (some name) labels s).1 = Except.ok r ∧
      r.feat_id = sanitizeFeatName name ∧ r.branch = "feat/" ++ sanitizeFeatName name) ∧
    (∃ r : FeatResult,
      (createFeatBranch bfiles freshId p files none labels s).1 = Except.ok r ∧
      r.feat_id = freshId ∧ r.branch = "feat/" ++ freshId) := by
  constructor
  · obtain ⟨pr, hr, -⟩ := createFeatBranch_spec bfiles freshId p files (some name) labels s hv hf
    exact ⟨_, hr, rfl, rfl⟩
  · obtain ⟨pr, hr, -⟩ := createFeatBranch_spec bfiles freshId p files none labels s hv hf
    exact ⟨_, hr, rfl, rfl⟩

theorem createFeatBranch_featId_witness :
    (validProject "proj-a" = true ∧ ([("a.txt", "hello")] : List (String × String)) ≠ []) ∧
    ((∃ r : FeatResult,
       (createFeatBranch [("w.yml", "ci")] "u1" "proj-a" [("a.txt", "hello")]
           (some "My Feat!") [] GHState.init).1 = Except.ok r ∧
       r.feat_id = sanitizeFeatName "My Feat!" ∧
       r.branch = "feat/" ++ sanitizeFeatName "My Feat!") ∧
     (∃ r : FeatResult,
       (createFeatBranch [("w.yml", "ci")] "u1" "proj-a" [("a.txt", "hello")]
           none [] GHState.init).1 = Except.ok r ∧
       r.feat_id = "u1" ∧ r.branch = "feat/" ++ "u1")) :=
  ⟨⟨by decide, by decide⟩,
   createFeatBranch_featId [("w.yml", "ci")] "u1" "proj-a" [("a.txt", "hello")] "My Feat!" []
     GHState.init (by decide) (by decide)⟩
